import Mathlib

/-!
Shallow embedding of `src/lib/geoprint.py` (a base-4 geohash variant).

The bisection codec (`encode`, `decode`, `error`, `size`) performs exact
dyadic-rational arithmetic, so it is embedded over `ℚ`.  The spherical
geometry (`distance`, `adjacent`, `neighbors`) uses transcendental
functions and is embedded over `ℝ`.  Python exceptions are embedded with
`Except`: `decode` can raise `IndexError` (empty input), `KeyError`
(character outside the alphabet) or `UnboundLocalError` (bad hemisphere
character leaves the longitude interval unassigned), and `adjacent`
raises `TypeError` when an argument has fewer than 3 characters.
-/

namespace Geoprint

/-- The running `(min, max)` bound pair used during bisection
(`interval = namedtuple("interval", "min max")`). -/
structure Interval where
  min : ℚ
  max : ℚ
deriving DecidableEq

/-- The Python exceptions the library can raise. -/
inductive PyErr where
  | typeError
  | keyError
  | indexError
  | unboundLocal
deriving DecidableEq

/-- `alphabet = 'gatc'`. -/
def alphabet : List Char := ['g', 'a', 't', 'c']

/-- `decodemap = dict((k, i) for (i, k) in enumerate(alphabet))`;
`none` models a `KeyError` on lookup. -/
def decodemap (c : Char) : Option ℕ :=
  if c = 'g' then some 0
  else if c = 'a' then some 1
  else if c = 't' then some 2
  else if c = 'c' then some 3
  else none

/-- One iteration of the `while` loop body of `encode`: computes the
2-bit character value `ch` and the narrowed longitude and latitude
intervals.  `ch |= 2` on strict `longitude > mid`, `ch |= 1` on strict
`latitude > mid`. -/
def encodeStep (latitude longitude : ℚ) (loni lati : Interval) :
    ℕ × Interval × Interval :=
  let midLon := (loni.min + loni.max) / 2
  let p1 :=
    if longitude > midLon then ((2 : ℕ), Interval.mk midLon loni.max)
    else ((0 : ℕ), Interval.mk loni.min midLon)
  let midLat := (lati.min + lati.max) / 2
  let p2 :=
    if latitude > midLat then ((1 : ℕ), Interval.mk midLat lati.max)
    else ((0 : ℕ), Interval.mk lati.min midLat)
  (p1.1 ||| p2.1, p1.2, p2.2)

/-- The `while len(geoprint) < precision` loop of `encode`, run for
`fuel` iterations; returns the emitted characters together with the
final intervals (the loop's running state). -/
def encodeLoop (latitude longitude : ℚ) :
    ℕ → Interval → Interval → List Char × Interval × Interval
  | 0, loni, lati => ([], loni, lati)
  | n + 1, loni, lati =>
    let s := encodeStep latitude longitude loni lati
    let r := encodeLoop latitude longitude n s.2.1 s.2.2
    (alphabet.getD s.1 'g' :: r.1, r.2)

/-- `encode(latitude, longitude, precision)` (degree inputs, the
`radians=False` path).  The hemisphere character is `'w'` iff
`longitude < 0`; the loop then appends characters until the geoprint
has `precision` characters, i.e. `max 0 (precision - 1)` more. -/
def encode (latitude longitude : ℚ) (precision : ℤ) : String :=
  let p :=
    if longitude < 0 then ('w', Interval.mk (-180) 0)
    else ('e', Interval.mk 0 180)
  let lati := Interval.mk (-90) 90
  String.mk (p.1 :: (encodeLoop latitude longitude (precision - 1).toNat p.2 lati).1)

/-- The `for c in geoprint[1:]` loop of `decode`.  The longitude
interval is `none` when the hemisphere character was invalid (Python
leaves `loni` unbound); using it then raises `UnboundLocalError`, and
an alphabet lookup failure raises `KeyError` first within an
iteration. -/
def decodeLoop :
    List Char → Option Interval → Interval →
      Except PyErr (Option Interval × Interval)
  | [], loni?, lati => Except.ok (loni?, lati)
  | c :: cs, loni?, lati =>
    match decodemap c with
    | none => Except.error PyErr.keyError
    | some cd =>
      match loni? with
      | none => Except.error PyErr.unboundLocal
      | some loni =>
        let loni' :=
          if cd &&& 2 ≠ 0 then Interval.mk ((loni.min + loni.max) / 2) loni.max
          else Interval.mk loni.min ((loni.min + loni.max) / 2)
        let lati' :=
          if cd &&& 1 ≠ 0 then Interval.mk ((lati.min + lati.max) / 2) lati.max
          else Interval.mk lati.min ((lati.min + lati.max) / 2)
        decodeLoop cs (some loni') lati'

/-- The hemisphere table of `decode`: the initial longitude interval
for the first character, `none` when `loni` stays unbound. -/
def hemisphere (first : Char) : Option Interval :=
  if first = 'w' then some (Interval.mk (-180) 0)
  else if first = 'e' then some (Interval.mk 0 180)
  else none

/-- `decode` over the character list of the geoprint. -/
def decodeList : List Char → Except PyErr (ℚ × ℚ)
  | [] => Except.error PyErr.indexError
  | first :: rest =>
    match decodeLoop rest (hemisphere first) (Interval.mk (-90) 90) with
    | Except.error e => Except.error e
    | Except.ok (none, _) => Except.error PyErr.unboundLocal
    | Except.ok (some loni, lati) =>
      Except.ok ((lati.min + lati.max) / 2, (loni.min + loni.max) / 2)

/-- `decode(geoprint)` (the `radians=False` path), returning the
`(latitude, longitude)` midpoints of the final intervals, or the
Python exception the call raises. -/
def decode (geoprint : String) : Except PyErr (ℚ × ℚ) :=
  decodeList geoprint.data

/-- `error(geoprint)` in degrees: `90.0 * pow(2, neg(len(geoprint) - 1))`. -/
def error (geoprint : String) : ℚ :=
  90 * (2 : ℚ) ^ (-((geoprint.length : ℤ) - 1))

/-- `size(geoprint) = 20000000.0 * pow(2, neg(len(geoprint) - 1))`. -/
def size (geoprint : String) : ℚ :=
  20000000 * (2 : ℚ) ^ (-((geoprint.length : ℤ) - 1))

/-- `error(geoprint, radians=True)`: the degree error converted by
`math.radians`, i.e. multiplied by `π / 180`. -/
noncomputable def errorRadians (geoprint : String) : ℝ :=
  (error geoprint : ℝ) * Real.pi / 180

/-- `math.radians` applied to an exact rational degree value. -/
noncomputable def rads (x : ℚ) : ℝ := (x : ℝ) * Real.pi / 180

open Classical in
/-- Two-argument arctangent, the mathematical function computed by
`math.atan2(y, x)`. -/
noncomputable def atan2 (y x : ℝ) : ℝ :=
  if 0 < x then Real.arctan (y / x)
  else if x < 0 ∧ 0 ≤ y then Real.arctan (y / x) + Real.pi
  else if x < 0 then Real.arctan (y / x) - Real.pi
  else if x = 0 ∧ 0 < y then Real.pi / 2
  else if x = 0 ∧ y < 0 then -(Real.pi / 2)
  else 0

/-- Python float `%` for a positive modulus (`operator.mod`). -/
noncomputable def fmod (x y : ℝ) : ℝ := x - y * (⌊x / y⌋ : ℤ)

/-- `distance(start, end, radians=True)`: haversine angular distance
between the decoded endpoints; decoding failures propagate. -/
noncomputable def distance (start stop : String) : Except PyErr ℝ := do
  let s ← decode start
  let e ← decode stop
  let startLat := rads s.1
  let endLat := rads e.1
  let dLat := rads e.1 - rads s.1
  let dLon := rads e.2 - rads s.2
  let a := Real.sin (dLat / 2) ^ 2 +
    Real.cos startLat * Real.cos endLat * Real.sin (dLon / 2) ^ 2
  pure (2 * atan2 (Real.sqrt a) (Real.sqrt (1 - a)))

/-- `adjacent(first, second)`: raises `TypeError` when either geoprint
has fewer than 3 characters, otherwise returns the truth value of
`h <= d` where `maxe = error(first, True)/2 + error(second, True)/2`,
`h = sqrt(maxe² + maxe²)` and `d = distance(first, second, True)`. -/
noncomputable def adjacent (first second : String) : Except PyErr Prop :=
  if min first.length second.length < 3 then Except.error PyErr.typeError
  else
    let maxe := errorRadians first / 2 + errorRadians second / 2
    let maxe2 := maxe ^ 2
    let h := Real.sqrt (maxe2 + maxe2)
    do
      let d ← distance first second
      pure (h ≤ d)

/-- Real-valued interval pair for the `radians=True` encode path used
by `neighbors`. -/
structure RInterval where
  min : ℝ
  max : ℝ

open Classical in
/-- `encodeStep` over `ℝ` (the loop body of `encode` on float inputs). -/
noncomputable def encodeStepR (latitude longitude : ℝ) (loni lati : RInterval) :
    ℕ × RInterval × RInterval :=
  let midLon := (loni.min + loni.max) / 2
  let p1 :=
    if longitude > midLon then ((2 : ℕ), RInterval.mk midLon loni.max)
    else ((0 : ℕ), RInterval.mk loni.min midLon)
  let midLat := (lati.min + lati.max) / 2
  let p2 :=
    if latitude > midLat then ((1 : ℕ), RInterval.mk midLat lati.max)
    else ((0 : ℕ), RInterval.mk lati.min midLat)
  (p1.1 ||| p2.1, p1.2, p2.2)

/-- The encode loop over `ℝ`. -/
noncomputable def encodeLoopR (latitude longitude : ℝ) :
    ℕ → RInterval → RInterval → List Char × RInterval × RInterval
  | 0, loni, lati => ([], loni, lati)
  | n + 1, loni, lati =>
    let s := encodeStepR latitude longitude loni lati
    let r := encodeLoopR latitude longitude n s.2.1 s.2.2
    (alphabet.getD s.1 'g' :: r.1, r.2)

open Classical in
/-- `encode(latitude, longitude, precision, radians=True)`: converts
the radian inputs to degrees with `math.degrees` and runs the
bisection loop over `ℝ`. -/
noncomputable def encodeR (latitude longitude : ℝ) (precision : ℤ) : String :=
  let latd := latitude * 180 / Real.pi
  let lond := longitude * 180 / Real.pi
  let p :=
    if lond < 0 then ('w', RInterval.mk (-180) 0)
    else ('e', RInterval.mk 0 180)
  let lati := RInterval.mk (-90) 90
  String.mk (p.1 :: (encodeLoopR latd lond (precision - 1).toNat p.2 lati).1)

/-- The compass-bearing strings that key `_radials`. -/
def bN : String := String.mk ['N']

/-- North-east bearing key. -/
def bNE : String := String.mk ['N', 'E']

/-- East bearing key. -/
def bE : String := String.mk ['E']

/-- South-east bearing key. -/
def bSE : String := String.mk ['S', 'E']

/-- South bearing key. -/
def bS : String := String.mk ['S']

/-- South-west bearing key. -/
def bSW : String := String.mk ['S', 'W']

/-- West bearing key. -/
def bW : String := String.mk ['W']

/-- North-west bearing key. -/
def bNW : String := String.mk ['N', 'W']

/-- `_radials`: the eight compass bearings with their angles. -/
noncomputable def radials : List (String × ℝ) :=
  [(bN, 0), (bNE, Real.pi / 4), (bE, Real.pi / 2), (bSE, 3 * Real.pi / 4),
   (bS, Real.pi), (bSW, 5 * Real.pi / 4), (bW, 3 * Real.pi / 2),
   (bNW, 7 * Real.pi / 4)]

/-- `neighbors(geoprint, bearing=True)`: decodes the geoprint to
radians, walks the angular box size along each of the eight bearings
with the spherical direct-geodesic formula, re-encodes at the same
precision, and collects the `(bearing, geoprint)` pairs into a set. -/
noncomputable def neighbors (geoprint : String) :
    Except PyErr (Finset (String × String)) := do
  let precision := (geoprint.length : ℤ)
  let c ← decode geoprint
  let lat1 := rads c.1
  let lon1 := rads c.2
  let d : ℝ := (size geoprint : ℝ) / 6378100
  pure ((radials.map (fun br =>
    let r := br.2
    let lat := Real.arcsin (Real.sin lat1 * Real.cos d +
      Real.cos lat1 * Real.sin d * Real.cos r)
    let dlon := atan2 (Real.sin r * Real.sin d * Real.cos lat1)
      (Real.cos d - Real.sin lat1 * Real.sin lat)
    let lon := fmod (lon1 + dlon + Real.pi) (2 * Real.pi) - Real.pi
    (br.1, encodeR lat lon precision))).toFinset)

/-- The spec's syntactic well-formedness of a geoprint: nonempty,
first character `'w'` or `'e'`, every later character in
`{g, a, t, c}`.  Stated from the spec's words, to be compared with the
failure behaviour of `decode`. -/
def specWellFormed (g : String) : Bool :=
  match g.data with
  | [] => false
  | first :: rest =>
    (first = 'w' || first = 'e') && rest.all (fun c => (decodemap c).isSome)

/-- Whether an `Except` result is a normal return. -/
def isOk {ε α : Type} : Except ε α → Bool
  | Except.ok _ => true
  | Except.error _ => false

/-- The geoprint `"wgg"`, used as a concrete probe. -/
def wgg : String := String.mk ['w', 'g', 'g']

/-- The geoprint `"w"`. -/
def wStr : String := String.mk ['w']

/-- The geoprint `"wg"`. -/
def wgStr : String := String.mk ['w', 'g']

/-- The geoprint `"e"`. -/
def eStr : String := String.mk ['e']

/-- The 22-character geoprint of the module's doctest,
`"watttatcttttgctacgaagt"`. -/
def doctestGeoprint : String :=
  String.mk ['w', 'a', 't', 't', 't', 'a', 't', 'c', 't', 't', 't', 't',
    'g', 'c', 't', 'a', 'c', 'g', 'a', 'a', 'g', 't']

/-- `x` lies in the closed interval `i`. -/
def memIv (x : ℚ) (i : Interval) : Prop := i.min ≤ x ∧ x ≤ i.max

theorem alphabet_getD_mem (n : ℕ) : alphabet.getD n 'g' ∈ alphabet := by
  rcases n with _ | _ | _ | _ | n <;> simp [alphabet, List.getD]

theorem encodeLoop_length (lat lon : ℚ) :
    ∀ (n : ℕ) (loni lati : Interval),
      ((encodeLoop lat lon n loni lati).1).length = n := by
  intro n
  induction n with
  | zero => intro loni lati; rfl
  | succ k ih => intro loni lati; simp [encodeLoop, ih]

theorem encodeLoop_mem_alphabet (lat lon : ℚ) :
    ∀ (n : ℕ) (loni lati : Interval), ∀ c ∈ (encodeLoop lat lon n loni lati).1,
      c ∈ alphabet := by
  intro n
  induction n with
  | zero => intro loni lati c hc; simp [encodeLoop] at hc
  | succ k ih =>
    intro loni lati c hc
    simp only [encodeLoop, List.mem_cons] at hc
    rcases hc with hc | hc
    · subst hc; exact alphabet_getD_mem _
    · exact ih _ _ c hc

theorem encodeLoop_take (lat lon : ℚ) :
    ∀ (k m : ℕ) (loni lati : Interval),
      ((encodeLoop lat lon (k + m) loni lati).1).take k =
        (encodeLoop lat lon k loni lati).1 := by
  intro k
  induction k with
  | zero => intro m loni lati; simp [encodeLoop]
  | succ j ih =>
    intro m loni lati
    have hadd : j + 1 + m = (j + m) + 1 := by omega
    rw [hadd]
    simp [encodeLoop, ih]

theorem encodeStep_invariant (lat lon : ℚ) (loni lati : Interval)
    (hlon : memIv lon loni) (hlat : memIv lat lati) :
    memIv lon (encodeStep lat lon loni lati).2.1 ∧
    memIv lat (encodeStep lat lon loni lati).2.2 ∧
    (encodeStep lat lon loni lati).2.1.max - (encodeStep lat lon loni lati).2.1.min =
      (loni.max - loni.min) / 2 ∧
    (encodeStep lat lon loni lati).2.2.max - (encodeStep lat lon loni lati).2.2.min =
      (lati.max - lati.min) / 2 := by
  obtain ⟨h1, h2⟩ := hlon
  obtain ⟨h3, h4⟩ := hlat
  by_cases hc : lon > (loni.min + loni.max) / 2 <;>
    by_cases hd : lat > (lati.min + lati.max) / 2 <;>
    simp [encodeStep, memIv, hc, hd] <;>
    and_intros <;> linarith

theorem encodeLoop_invariant (lat lon : ℚ) :
    ∀ (n : ℕ) (loni lati : Interval), memIv lon loni → memIv lat lati →
      memIv lon (encodeLoop lat lon n loni lati).2.1 ∧
      memIv lat (encodeLoop lat lon n loni lati).2.2 ∧
      (encodeLoop lat lon n loni lati).2.1.max -
          (encodeLoop lat lon n loni lati).2.1.min =
        (loni.max - loni.min) / 2 ^ n ∧
      (encodeLoop lat lon n loni lati).2.2.max -
          (encodeLoop lat lon n loni lati).2.2.min =
        (lati.max - lati.min) / 2 ^ n := by
  intro n
  induction n with
  | zero =>
    intro loni lati hlon hlat
    exact ⟨hlon, hlat, by simp [encodeLoop], by simp [encodeLoop]⟩
  | succ k ih =>
    intro loni lati hlon hlat
    obtain ⟨s1, s2, s3, s4⟩ := encodeStep_invariant lat lon loni lati hlon hlat
    obtain ⟨i1, i2, i3, i4⟩ := ih (encodeStep lat lon loni lati).2.1
      (encodeStep lat lon loni lati).2.2 s1 s2
    refine ⟨?_, ?_, ?_, ?_⟩ <;>
      simp only [encodeLoop] <;>
      [exact i1; exact i2; skip; skip] <;>
      rw [pow_succ] <;> [rw [i3, s3]; rw [i4, s4]] <;> ring

theorem data_mk (l : List Char) : (String.mk l).data = l := rfl

theorem length_mk (l : List Char) : (String.mk l).length = l.length := rfl

theorem decodeLoop_encodeLoop (lat lon : ℚ) :
    ∀ (n : ℕ) (loni lati : Interval),
      decodeLoop (encodeLoop lat lon n loni lati).1 (some loni) lati =
        Except.ok (some (encodeLoop lat lon n loni lati).2.1,
          (encodeLoop lat lon n loni lati).2.2) := by
  intro n
  induction n with
  | zero => intro loni lati; rfl
  | succ k ih =>
    intro loni lati
    by_cases hc : lon > (loni.min + loni.max) / 2 <;>
      by_cases hd : lat > (lati.min + lati.max) / 2 <;>
      simp +decide [encodeLoop, encodeStep, decodeLoop, hc, hd, decodemap,
        alphabet, ih]

/-- C5: the bisection tie-break is strict: a coordinate exactly equal
to the current interval midpoint is routed to the lower half with no
bit set, in both axes; and concretely
`encode(7.0625, -95.677068, 22) = "watttatcttttgctacgaagt"`. -/
theorem C5_strict_tie_break (lat lon : ℚ) (loni lati : Interval)
    (hlon : lon = (loni.min + loni.max) / 2)
    (hlat : lat = (lati.min + lati.max) / 2) :
    encodeStep lat lon loni lati =
      (0, Interval.mk loni.min lon, Interval.mk lati.min lat) ∧
    encode (113 / 16) (-(23919267 / 250000)) 22 = doctestGeoprint := by
  constructor
  · subst hlon hlat
    simp [encodeStep]
  · norm_num [encode, encodeLoop, encodeStep, alphabet, List.getD,
      doctestGeoprint, (show (2 ||| 1 : ℕ) = 3 from rfl)]

theorem C5_witness :
    encodeStep 0 (-90) (Interval.mk (-180) 0) (Interval.mk (-90) 90) =
      (0, Interval.mk (-180) (-90), Interval.mk (-90) 0) ∧
    encode (113 / 16) (-(23919267 / 250000)) 22 = doctestGeoprint :=
  C5_strict_tie_break 0 (-90) (Interval.mk (-180) 0) (Interval.mk (-90) 90)
    (by norm_num) (by norm_num)

/-- C6: for latitude in [-90, 90], longitude in [-180, 180] and
precision p ≥ 1, `encode` returns a string of length exactly p whose
first character is `'w'` iff the longitude is negative (`'e'`
otherwise) and whose remaining characters all come from `'gatc'`. -/
theorem C6_encode_shape (lat lon : ℚ) (p : ℤ)
    (h1 : -90 ≤ lat) (h2 : lat ≤ 90) (h3 : -180 ≤ lon) (h4 : lon ≤ 180)
    (hp : 1 ≤ p) :
    ((encode lat lon p).length : ℤ) = p ∧
    ((encode lat lon p).data.head? = some 'w' ↔ lon < 0) ∧
    ((encode lat lon p).data.head? = some 'e' ↔ ¬lon < 0) ∧
    ∀ c ∈ (encode lat lon p).data.tail, c ∈ alphabet := by
  by_cases hneg : lon < 0 <;>
    simp only [encode, hneg, if_true, if_false, length_mk, data_mk,
      List.length_cons, List.head?_cons, List.tail_cons, encodeLoop_length,
      Option.some.injEq] <;>
    refine ⟨by omega, by simp, by simp, ?_⟩ <;>
    · intro c hc
      exact encodeLoop_mem_alphabet lat lon _ _ _ c hc

theorem C6_witness :
    ((encode 7 (-95) 4).length : ℤ) = 4 ∧
    ((encode 7 (-95) 4).data.head? = some 'w' ↔ (-95 : ℚ) < 0) ∧
    ((encode 7 (-95) 4).data.head? = some 'e' ↔ ¬(-95 : ℚ) < 0) ∧
    ∀ c ∈ (encode 7 (-95) 4).data.tail, c ∈ alphabet :=
  C6_encode_shape 7 (-95) 4 (by norm_num) (by norm_num) (by norm_num)
    (by norm_num) (by norm_num)

/-- C8: `error` is `90 * 2^-(n-1)` degrees (times `π/180` in the
radians variant) and `size` is `20000000 * 2^-(n-1)`, both functions
of the length only; `error` is strictly decreasing in length, with
`error("w") = 90`, `error("wg") = 45` and `size("w") = 20000000`. -/
theorem C8_error_size (g g2 : String) (hg : 1 ≤ g.length)
    (hlt : g.length < g2.length) :
    error g = 90 * (2 : ℚ) ^ (-((g.length : ℤ) - 1)) ∧
    size g = 20000000 * (2 : ℚ) ^ (-((g.length : ℤ) - 1)) ∧
    errorRadians g = (error g : ℝ) * Real.pi / 180 ∧
    (∀ g3 : String, g3.length = g.length → error g3 = error g ∧ size g3 = size g) ∧
    error g2 < error g ∧
    error wStr = 90 ∧ error wgStr = 45 ∧ size wStr = 20000000 := by
  refine ⟨rfl, rfl, rfl, ?_, ?_, by norm_num [error, wStr, length_mk],
    by norm_num [error, wgStr, length_mk], by norm_num [size, wStr, length_mk]⟩
  · intro g3 hlen
    rw [error, error, size, size, hlen]
    exact ⟨rfl, rfl⟩
  · rw [error, error]
    have hexp : -((g2.length : ℤ) - 1) < -((g.length : ℤ) - 1) := by omega
    have hz := zpow_lt_zpow_right₀ (one_lt_two (α := ℚ)) hexp
    linarith

theorem C8_witness :
    error wStr = 90 * (2 : ℚ) ^ (-((wStr.length : ℤ) - 1)) ∧
    size wStr = 20000000 * (2 : ℚ) ^ (-((wStr.length : ℤ) - 1)) ∧
    errorRadians wStr = (error wStr : ℝ) * Real.pi / 180 ∧
    (∀ g3 : String, g3.length = wStr.length →
      error g3 = error wStr ∧ size g3 = size wStr) ∧
    error wgStr < error wStr ∧
    error wStr = 90 ∧ error wgStr = 45 ∧ size wStr = 20000000 :=
  C8_error_size wStr wgStr (by norm_num [wStr, length_mk])
    (by norm_num [wStr, wgStr, length_mk])

theorem iv_min (a b : ℚ) : (Interval.mk a b).min = a := rfl

theorem iv_max (a b : ℚ) : (Interval.mk a b).max = b := rfl

theorem decodeList_encodeLoop (lat lon : ℚ) (n : ℕ) (first : Char)
    (loni0 : Interval) (hhemi : hemisphere first = some loni0) :
    decodeList (first :: (encodeLoop lat lon n loni0 (Interval.mk (-90) 90)).1) =
      Except.ok
        (((encodeLoop lat lon n loni0 (Interval.mk (-90) 90)).2.2.min +
            (encodeLoop lat lon n loni0 (Interval.mk (-90) 90)).2.2.max) / 2,
         ((encodeLoop lat lon n loni0 (Interval.mk (-90) 90)).2.1.min +
            (encodeLoop lat lon n loni0 (Interval.mk (-90) 90)).2.1.max) / 2) := by
  simp only [decodeList, hhemi, decodeLoop_encodeLoop]

/-- C4: for latitude in [-90, 90], longitude in [-180, 180] and
precision p ≥ 1, decoding the encoded geoprint yields a coordinate
within `90 * 2^-(p-1)` degrees of the original on each axis. -/
theorem C4_round_trip_bound (lat lon : ℚ) (p : ℤ)
    (h1 : -90 ≤ lat) (h2 : lat ≤ 90) (h3 : -180 ≤ lon) (h4 : lon ≤ 180)
    (hp : 1 ≤ p) :
    ∃ dlat dlon : ℚ, decode (encode lat lon p) = Except.ok (dlat, dlon) ∧
      |dlat - lat| ≤ 90 * (2 : ℚ) ^ (-(p - 1)) ∧
      |dlon - lon| ≤ 90 * (2 : ℚ) ^ (-(p - 1)) := by
  have hbound : 90 * (2 : ℚ) ^ (-(p - 1)) = 90 / 2 ^ (p - 1).toNat := by
    rw [show -(p - 1) = -(((p - 1).toNat : ℤ)) by omega, zpow_neg,
      zpow_natCast, div_eq_mul_inv]
  rw [hbound]
  have hmemlat : memIv lat (Interval.mk (-90) 90) := ⟨h1, h2⟩
  by_cases hneg : lon < 0
  · have hmemlon : memIv lon (Interval.mk (-180) 0) := ⟨h3, le_of_lt hneg⟩
    have henc : encode lat lon p = String.mk ('w' ::
        (encodeLoop lat lon (p - 1).toNat (Interval.mk (-180) 0)
          (Interval.mk (-90) 90)).1) := by
      simp [encode, hneg]
    obtain ⟨⟨a1, a2⟩, ⟨b1, b2⟩, i3, i4⟩ := encodeLoop_invariant lat lon
      (p - 1).toNat (Interval.mk (-180) 0) (Interval.mk (-90) 90) hmemlon hmemlat
    rw [henc,
      show ∀ l, decode (String.mk l) = decodeList l from fun _ => rfl,
      decodeList_encodeLoop lat lon (p - 1).toNat 'w' (Interval.mk (-180) 0) rfl]
    rw [iv_min, iv_max] at i3 i4
    refine ⟨_, _, rfl, ?_, ?_⟩ <;> rw [abs_le]
    · have key : (90 : ℚ) / 2 ^ (p - 1).toNat =
          ((encodeLoop lat lon (p - 1).toNat (Interval.mk (-180) 0)
            (Interval.mk (-90) 90)).2.2.max -
           (encodeLoop lat lon (p - 1).toNat (Interval.mk (-180) 0)
            (Interval.mk (-90) 90)).2.2.min) / 2 := by
        rw [i4]; ring
      rw [key]
      constructor <;> linarith
    · have key : (90 : ℚ) / 2 ^ (p - 1).toNat =
          ((encodeLoop lat lon (p - 1).toNat (Interval.mk (-180) 0)
            (Interval.mk (-90) 90)).2.1.max -
           (encodeLoop lat lon (p - 1).toNat (Interval.mk (-180) 0)
            (Interval.mk (-90) 90)).2.1.min) / 2 := by
        rw [i3]; ring
      rw [key]
      constructor <;> linarith
  · have hmemlon : memIv lon (Interval.mk 0 180) := ⟨le_of_not_lt hneg, h4⟩
    have henc : encode lat lon p = String.mk ('e' ::
        (encodeLoop lat lon (p - 1).toNat (Interval.mk 0 180)
          (Interval.mk (-90) 90)).1) := by
      simp [encode, hneg]
    obtain ⟨⟨a1, a2⟩, ⟨b1, b2⟩, i3, i4⟩ := encodeLoop_invariant lat lon
      (p - 1).toNat (Interval.mk 0 180) (Interval.mk (-90) 90) hmemlon hmemlat
    rw [henc,
      show ∀ l, decode (String.mk l) = decodeList l from fun _ => rfl,
      decodeList_encodeLoop lat lon (p - 1).toNat 'e' (Interval.mk 0 180) rfl]
    rw [iv_min, iv_max] at i3 i4
    refine ⟨_, _, rfl, ?_, ?_⟩ <;> rw [abs_le]
    · have key : (90 : ℚ) / 2 ^ (p - 1).toNat =
          ((encodeLoop lat lon (p - 1).toNat (Interval.mk 0 180)
            (Interval.mk (-90) 90)).2.2.max -
           (encodeLoop lat lon (p - 1).toNat (Interval.mk 0 180)
            (Interval.mk (-90) 90)).2.2.min) / 2 := by
        rw [i4]; ring
      rw [key]
      constructor <;> linarith
    · have key : (90 : ℚ) / 2 ^ (p - 1).toNat =
          ((encodeLoop lat lon (p - 1).toNat (Interval.mk 0 180)
            (Interval.mk (-90) 90)).2.1.max -
           (encodeLoop lat lon (p - 1).toNat (Interval.mk 0 180)
            (Interval.mk (-90) 90)).2.1.min) / 2 := by
        rw [i3]; ring
      rw [key]
      constructor <;> linarith

theorem C4_witness :
    ∃ dlat dlon : ℚ, decode (encode 7 (-95) 3) = Except.ok (dlat, dlon) ∧
      |dlat - 7| ≤ 90 * (2 : ℚ) ^ (-(3 - 1 : ℤ)) ∧
      |dlon - (-95)| ≤ 90 * (2 : ℚ) ^ (-(3 - 1 : ℤ)) :=
  C4_round_trip_bound 7 (-95) 3 (by norm_num) (by norm_num) (by norm_num)
    (by norm_num) (by norm_num)

/-- C7: dropping the last character of `encode(lat, lon, n)` yields
exactly `encode(lat, lon, n-1)` — encoding is prefix-stable in the
precision. -/
theorem C7_prefix_stability (lat lon : ℚ) (n : ℤ)
    (h1 : -90 ≤ lat) (h2 : lat ≤ 90) (h3 : -180 ≤ lon) (h4 : lon ≤ 180)
    (hn : 2 ≤ n) :
    encode lat lon (n - 1) =
      String.mk ((encode lat lon n).data.take (n - 1).toNat) := by
  have e1 : (n - 1 - 1).toNat = (n - 2).toNat := by omega
  have e2 : (n - 1).toNat = (n - 2).toNat + 1 := by omega
  by_cases hneg : lon < 0 <;>
    · simp only [encode, hneg, if_true, if_false, data_mk, e1, e2,
        List.take_succ_cons]
      rw [encodeLoop_take lat lon ((n - 2).toNat) 1]

theorem C7_witness :
    encode 7 (-95) (4 - 1) =
      String.mk ((encode 7 (-95) 4).data.take ((4 : ℤ) - 1).toNat) :=
  C7_prefix_stability 7 (-95) 4 (by norm_num) (by norm_num) (by norm_num)
    (by norm_num) (by norm_num)

theorem half_subinterval (i : Interval) (upper : Prop) [Decidable upper]
    (h : i.min < i.max) :
    (if upper then Interval.mk ((i.min + i.max) / 2) i.max
      else Interval.mk i.min ((i.min + i.max) / 2)).min <
        (if upper then Interval.mk ((i.min + i.max) / 2) i.max
          else Interval.mk i.min ((i.min + i.max) / 2)).max ∧
    i.min ≤ (if upper then Interval.mk ((i.min + i.max) / 2) i.max
      else Interval.mk i.min ((i.min + i.max) / 2)).min ∧
    (if upper then Interval.mk ((i.min + i.max) / 2) i.max
      else Interval.mk i.min ((i.min + i.max) / 2)).max ≤ i.max := by
  split <;> simp only [iv_min, iv_max] <;> and_intros <;> linarith

theorem decodeLoop_valid (cs : List Char) :
    ∀ (loni lati : Interval), (∀ c ∈ cs, (decodemap c).isSome) →
      loni.min < loni.max → lati.min < lati.max →
      ∃ lonF latF : Interval,
        decodeLoop cs (some loni) lati = Except.ok (some lonF, latF) ∧
        lonF.min < lonF.max ∧ latF.min < latF.max ∧
        loni.min ≤ lonF.min ∧ lonF.max ≤ loni.max ∧
        lati.min ≤ latF.min ∧ latF.max ≤ lati.max := by
  induction cs with
  | nil =>
    intro loni lati _ hlon hlat
    exact ⟨loni, lati, rfl, hlon, hlat, le_refl _, le_refl _, le_refl _,
      le_refl _⟩
  | cons c cs ih =>
    intro loni lati hv hlon hlat
    obtain ⟨cd, hcd⟩ :=
      Option.isSome_iff_exists.mp (hv c (List.mem_cons_self c cs))
    obtain ⟨w1, w2, w3⟩ := half_subinterval loni (cd &&& 2 ≠ 0) hlon
    obtain ⟨v1, v2, v3⟩ := half_subinterval lati (cd &&& 1 ≠ 0) hlat
    obtain ⟨lonF, latF, hstep, p1, p2, p3, p4, p5, p6⟩ :=
      ih _ _ (fun a ha => hv a (List.mem_cons_of_mem _ ha)) w1 v1
    refine ⟨lonF, latF, ?_, p1, p2, le_trans w2 p3, le_trans p4 w3,
      le_trans v2 p5, le_trans p6 v3⟩
    simp only [decodeLoop, hcd]
    exact hstep

theorem decodeLoop_invalid (cs : List Char) :
    ∀ (loni? : Option Interval) (lati : Interval),
      (¬ ∀ c ∈ cs, (decodemap c).isSome) →
      ∃ e, decodeLoop cs loni? lati = Except.error e := by
  induction cs with
  | nil => intro _ _ h; exact absurd (by simp) h
  | cons c cs ih =>
    intro loni? lati h
    by_cases hc : (decodemap c).isSome
    · obtain ⟨cd, hcd⟩ := Option.isSome_iff_exists.mp hc
      cases loni? with
      | none => exact ⟨PyErr.unboundLocal, by simp [decodeLoop, hcd]⟩
      | some loni =>
        have hrest : ¬ ∀ a ∈ cs, (decodemap a).isSome := by
          intro hall
          refine h ?_
          intro a ha
          rcases List.mem_cons.mp ha with rfl | ha
          · exact hc
          · exact hall a ha
        obtain ⟨e, he⟩ := ih _ _ hrest
        refine ⟨e, ?_⟩
        simp only [decodeLoop, hcd]
        exact he
    · refine ⟨PyErr.keyError, ?_⟩
      simp [decodeLoop, Option.not_isSome_iff_eq_none.mp hc]

theorem decodeLoop_hemisphereless (cs : List Char) (lati : Interval) :
    decodeLoop cs none lati = Except.ok (none, lati) ∨
      ∃ e, decodeLoop cs none lati = Except.error e := by
  cases cs with
  | nil => exact Or.inl rfl
  | cons c cs =>
    right
    cases hcd : decodemap c with
    | none => exact ⟨PyErr.keyError, by simp [decodeLoop, hcd]⟩
    | some cd => exact ⟨PyErr.unboundLocal, by simp [decodeLoop, hcd]⟩

/-- C3: `decode` fails exactly when the input is empty, its first
character is neither `'w'` nor `'e'`, or a later character is outside
`{g, a, t, c}`; it succeeds on every other string. -/
theorem C3_decode_failure_characterization (g : String) :
    isOk (decode g) = specWellFormed g := by
  obtain ⟨l⟩ := g
  cases l with
  | nil => rfl
  | cons first rest =>
    show isOk (decodeList (first :: rest)) =
      specWellFormed (String.mk (first :: rest))
    by_cases hfirst : first = 'w' ∨ first = 'e'
    · obtain ⟨loni0, hh, hlt⟩ :
          ∃ loni0, hemisphere first = some loni0 ∧ loni0.min < loni0.max := by
        rcases hfirst with rfl | rfl
        · exact ⟨_, rfl, by norm_num [iv_min, iv_max]⟩
        · exact ⟨_, rfl, by norm_num [iv_min, iv_max]⟩
      by_cases hall : ∀ c ∈ rest, (decodemap c).isSome
      · obtain ⟨lonF, latF, hstep, -⟩ :=
          decodeLoop_valid rest loni0 (Interval.mk (-90) 90) hall hlt
            (by norm_num [iv_min, iv_max])
        simp only [decodeList, hh, hstep, isOk, specWellFormed,
          List.all_eq_true]
        rw [eq_comm, Bool.and_eq_true, Bool.or_eq_true, decide_eq_true_eq,
          decide_eq_true_eq, List.all_eq_true]
        exact ⟨hfirst, hall⟩
      · obtain ⟨e, he⟩ :=
          decodeLoop_invalid rest (some loni0) (Interval.mk (-90) 90) hall
        rw [← hh] at he
        have hfalse : rest.all (fun c => (decodemap c).isSome) = false := by
          rw [Bool.eq_false_iff, Ne, List.all_eq_true]
          exact hall
        simp only [decodeList, he, isOk, specWellFormed, hfalse,
          Bool.and_false]
    · have hh : hemisphere first = none := by
        push_neg at hfirst
        simp [hemisphere, hfirst.1, hfirst.2]
      push_neg at hfirst
      rcases decodeLoop_hemisphereless rest (Interval.mk (-90) 90) with
        hok | ⟨e, he⟩
      · simp [decodeList, hh, hok, isOk, specWellFormed, hfirst.1, hfirst.2]
      · rw [← hh] at he
        simp [decodeList, he, isOk, specWellFormed, hfirst.1, hfirst.2]

theorem except_bind_error {α β : Type} (e : PyErr) (f : α → Except PyErr β) :
    (Except.error e : Except PyErr α) >>= f = Except.error e := rfl

theorem except_bind_ok {α β : Type} (a : α) (f : α → Except PyErr β) :
    (Except.ok a : Except PyErr α) >>= f = f a := rfl

theorem decodeLoop_ne_typeError (cs : List Char) :
    ∀ (loni? : Option Interval) (lati : Interval),
      decodeLoop cs loni? lati ≠ Except.error PyErr.typeError := by
  induction cs with
  | nil => intro loni? lati h; simp [decodeLoop] at h
  | cons c cs ih =>
    intro loni? lati
    cases hcd : decodemap c with
    | none => simp [decodeLoop, hcd]
    | some cd =>
      cases loni? with
      | none => simp [decodeLoop, hcd]
      | some loni =>
        simp only [decodeLoop, hcd]
        exact ih _ _

theorem decode_ne_typeError (g : String) :
    decode g ≠ Except.error PyErr.typeError := by
  obtain ⟨l⟩ := g
  cases l with
  | nil => simp [decode, decodeList]
  | cons first rest =>
    show decodeList (first :: rest) ≠ _
    have hne := decodeLoop_ne_typeError rest (hemisphere first)
      (Interval.mk (-90) 90)
    cases hd : decodeLoop rest (hemisphere first) (Interval.mk (-90) 90) with
    | error e =>
      rw [hd] at hne
      simpa [decodeList, hd] using hne
    | ok pr =>
      obtain ⟨loni?, lati⟩ := pr
      cases loni? <;> simp [decodeList, hd]

theorem distance_ne_typeError (a b : String) :
    distance a b ≠ Except.error PyErr.typeError := by
  rw [distance]
  cases hda : decode a with
  | error e =>
    have hne := decode_ne_typeError a
    rw [hda] at hne
    simpa [except_bind_error] using hne
  | ok s =>
    rw [except_bind_ok]
    cases hdb : decode b with
    | error e =>
      have hne := decode_ne_typeError b
      rw [hdb] at hne
      simpa [except_bind_error] using hne
    | ok e =>
      rw [except_bind_ok]
      simp [pure, Except.pure]

/-- C2 (counterexample): `encode` called with precision 0 raises no
exception at all — it returns the single-character geoprint `"e"`. -/
theorem C2_counterexample_encode_total :
    encode 0 0 0 = eStr ∧ (encode 0 0 0).length = 1 := by
  constructor <;>
    norm_num [encode, encodeLoop, eStr, length_mk,
      (show ((0 : ℤ) - 1).toNat = 0 by decide)]

/-- C2 (amended): `adjacent` raises its guard error (a `TypeError` in
the code, the spec's `DomainError`) exactly when one argument is
shorter than 3 characters, and `encode` never raises for precision
< 1: it returns a geoprint of length 1. -/
theorem C2_error_conditions (first second : String) (lat lon : ℚ) (p : ℤ)
    (hp : p < 1) :
    (adjacent first second = Except.error PyErr.typeError ↔
      min first.length second.length < 3) ∧
    (encode lat lon p).length = 1 := by
  constructor
  · constructor
    · intro h
      by_contra hlen
      rw [adjacent, if_neg hlen] at h
      cases hd : distance first second with
      | error e =>
        rw [hd, except_bind_error] at h
        have he : e = PyErr.typeError := by injection h
        rw [he] at hd
        exact distance_ne_typeError first second hd
      | ok d =>
        rw [hd, except_bind_ok] at h
        exact Except.noConfusion h
    · intro hlen
      rw [adjacent, if_pos hlen]
  · have h0 : (p - 1).toNat = 0 := by omega
    by_cases hneg : lon < 0 <;>
      simp [encode, hneg, h0, encodeLoop, length_mk] <;> decide

theorem C2_witness :
    (adjacent wgStr wgg = Except.error PyErr.typeError ↔
      min wgStr.length wgg.length < 3) ∧
    (encode 0 0 (0 : ℤ)).length = 1 :=
  C2_error_conditions wgStr wgg 0 0 0 (by norm_num)

/-- C1 (code bug): `adjacent` returns `h <= d`, the reverse of the
claimed `distance <= h`.  At `first = second = "wgg"` the distance is
0 and the bound `h = sqrt(2 maxe²)` is positive, so the claim demands
`true` while the code returns `false`. -/
theorem C1_adjacent_comparison_reversed :
    distance wgg wgg = Except.ok 0 ∧ adjacent wgg wgg = Except.ok False := by
  have hdec : decode wgg = Except.ok (-(135 / 2 : ℚ), -(315 / 2 : ℚ)) := by
    norm_num [wgg, decode, decodeList, decodeLoop, decodemap, hemisphere]
  have hdist : distance wgg wgg = Except.ok 0 := by
    rw [distance, hdec, except_bind_ok, except_bind_ok]
    simp only [pure, Except.pure, Except.ok.injEq]
    norm_num [rads, sub_self, Real.sin_zero, Real.sqrt_zero, Real.sqrt_one,
      atan2, Real.arctan_zero]
  have herr : (0 : ℝ) < errorRadians wgg := by
    rw [errorRadians]
    have h1 : (0 : ℚ) < error wgg := by rw [error]; positivity
    have h2 : (0 : ℝ) < (error wgg : ℝ) := by exact_mod_cast h1
    have hpi := Real.pi_pos
    positivity
  have hsum : (0 : ℝ) < (errorRadians wgg / 2 + errorRadians wgg / 2) ^ 2 +
      (errorRadians wgg / 2 + errorRadians wgg / 2) ^ 2 := by
    nlinarith [herr]
  have hpos := Real.sqrt_pos.mpr hsum
  refine ⟨hdist, ?_⟩
  rw [adjacent, if_neg (by norm_num [wgg, length_mk])]
  simp only [hdist, except_bind_ok, pure, Except.pure, Except.ok.injEq]
  exact eq_false (not_le.mpr hpos)

theorem encodeLoop_decodeLoop (cs : List Char) :
    ∀ (loni lati lonF latF : Interval),
      (∀ c ∈ cs, (decodemap c).isSome) →
      loni.min < loni.max → lati.min < lati.max →
      decodeLoop cs (some loni) lati = Except.ok (some lonF, latF) →
      encodeLoop ((latF.min + latF.max) / 2) ((lonF.min + lonF.max) / 2)
        cs.length loni lati = (cs, lonF, latF) := by
  induction cs with
  | nil =>
    intro loni lati lonF latF _ _ _ hd
    simp only [decodeLoop, Except.ok.injEq, Prod.mk.injEq,
      Option.some.injEq] at hd
    obtain ⟨h1, h2⟩ := hd
    subst h1 h2
    rfl
  | cons c cs ih =>
    intro loni lati lonF latF hv hlon hlat hd
    have hrest : ∀ a ∈ cs, (decodemap a).isSome :=
      fun a ha => hv a (List.mem_cons_of_mem _ ha)
    have hc4 : c = 'g' ∨ c = 'a' ∨ c = 't' ∨ c = 'c' := by
      have hc := hv c (List.mem_cons_self c cs)
      by_contra hno
      push_neg at hno
      rw [decodemap, if_neg hno.1, if_neg hno.2.1, if_neg hno.2.2.1,
        if_neg hno.2.2.2] at hc
      simp at hc
    rcases hc4 with rfl | rfl | rfl | rfl
    · -- 'g' = 0: both lower halves
      have hstep : decodeLoop cs
          (some (Interval.mk loni.min ((loni.min + loni.max) / 2)))
          (Interval.mk lati.min ((lati.min + lati.max) / 2)) =
            Except.ok (some lonF, latF) := by
        simpa +decide [decodeLoop, decodemap] using hd
      obtain ⟨lonF', latF', hstep', q1, q2, q3, q4, q5, q6⟩ :=
        decodeLoop_valid cs
          (Interval.mk loni.min ((loni.min + loni.max) / 2))
          (Interval.mk lati.min ((lati.min + lati.max) / 2))
          hrest (by rw [iv_min, iv_max]; linarith)
          (by rw [iv_min, iv_max]; linarith)
      rw [hstep] at hstep'
      simp only [Except.ok.injEq, Prod.mk.injEq, Option.some.injEq] at hstep'
      obtain ⟨e1, e2⟩ := hstep'
      subst e1 e2
      simp only [iv_max] at q4 q6
      have hlonle : ¬ ((loni.min + loni.max) / 2 < (lonF.min + lonF.max) / 2) :=
        by push_neg; linarith
      have hlatle : ¬ ((lati.min + lati.max) / 2 < (latF.min + latF.max) / 2) :=
        by push_neg; linarith
      simp only [List.length_cons, encodeLoop, encodeStep, hlonle, hlatle,
        if_false]
      rw [ih _ _ _ _ hrest (by rw [iv_min, iv_max]; linarith)
        (by rw [iv_min, iv_max]; linarith) hstep]
      rfl
    · -- 'a' = 1: longitude lower, latitude upper
      have hstep : decodeLoop cs
          (some (Interval.mk loni.min ((loni.min + loni.max) / 2)))
          (Interval.mk ((lati.min + lati.max) / 2) lati.max) =
            Except.ok (some lonF, latF) := by
        simpa +decide [decodeLoop, decodemap] using hd
      obtain ⟨lonF', latF', hstep', q1, q2, q3, q4, q5, q6⟩ :=
        decodeLoop_valid cs
          (Interval.mk loni.min ((loni.min + loni.max) / 2))
          (Interval.mk ((lati.min + lati.max) / 2) lati.max)
          hrest (by rw [iv_min, iv_max]; linarith)
          (by rw [iv_min, iv_max]; linarith)
      rw [hstep] at hstep'
      simp only [Except.ok.injEq, Prod.mk.injEq, Option.some.injEq] at hstep'
      obtain ⟨e1, e2⟩ := hstep'
      subst e1 e2
      simp only [iv_max] at q4 q6
      have hlonle : ¬ ((loni.min + loni.max) / 2 < (lonF.min + lonF.max) / 2) :=
        by push_neg; linarith
      have hlatgt : (lati.min + lati.max) / 2 < (latF.min + latF.max) / 2 := by
        linarith
      simp only [List.length_cons, encodeLoop, encodeStep, hlonle, hlatgt,
        if_false, if_true]
      rw [ih _ _ _ _ hrest (by rw [iv_min, iv_max]; linarith)
        (by rw [iv_min, iv_max]; linarith) hstep]
      rfl
    · -- 't' = 2: longitude upper, latitude lower
      have hstep : decodeLoop cs
          (some (Interval.mk ((loni.min + loni.max) / 2) loni.max))
          (Interval.mk lati.min ((lati.min + lati.max) / 2)) =
            Except.ok (some lonF, latF) := by
        simpa +decide [decodeLoop, decodemap] using hd
      obtain ⟨lonF', latF', hstep', q1, q2, q3, q4, q5, q6⟩ :=
        decodeLoop_valid cs
          (Interval.mk ((loni.min + loni.max) / 2) loni.max)
          (Interval.mk lati.min ((lati.min + lati.max) / 2))
          hrest (by rw [iv_min, iv_max]; linarith)
          (by rw [iv_min, iv_max]; linarith)
      rw [hstep] at hstep'
      simp only [Except.ok.injEq, Prod.mk.injEq, Option.some.injEq] at hstep'
      obtain ⟨e1, e2⟩ := hstep'
      subst e1 e2
      simp only [iv_max] at q4 q6
      have hlongt : (loni.min + loni.max) / 2 < (lonF.min + lonF.max) / 2 := by
        linarith
      have hlatle : ¬ ((lati.min + lati.max) / 2 < (latF.min + latF.max) / 2) :=
        by push_neg; linarith
      simp only [List.length_cons, encodeLoop, encodeStep, hlongt, hlatle,
        if_false, if_true]
      rw [ih _ _ _ _ hrest (by rw [iv_min, iv_max]; linarith)
        (by rw [iv_min, iv_max]; linarith) hstep]
      rfl
    · -- 'c' = 3: both upper halves
      have hstep : decodeLoop cs
          (some (Interval.mk ((loni.min + loni.max) / 2) loni.max))
          (Interval.mk ((lati.min + lati.max) / 2) lati.max) =
            Except.ok (some lonF, latF) := by
        simpa +decide [decodeLoop, decodemap] using hd
      obtain ⟨lonF', latF', hstep', q1, q2, q3, q4, q5, q6⟩ :=
        decodeLoop_valid cs
          (Interval.mk ((loni.min + loni.max) / 2) loni.max)
          (Interval.mk ((lati.min + lati.max) / 2) lati.max)
          hrest (by rw [iv_min, iv_max]; linarith)
          (by rw [iv_min, iv_max]; linarith)
      rw [hstep] at hstep'
      simp only [Except.ok.injEq, Prod.mk.injEq, Option.some.injEq] at hstep'
      obtain ⟨e1, e2⟩ := hstep'
      subst e1 e2
      simp only [iv_max] at q4 q6
      have hlongt : (loni.min + loni.max) / 2 < (lonF.min + lonF.max) / 2 := by
        linarith
      have hlatgt : (lati.min + lati.max) / 2 < (latF.min + latF.max) / 2 := by
        linarith
      simp only [List.length_cons, encodeLoop, encodeStep, hlongt, hlatgt,
        if_true]
      rw [ih _ _ _ _ hrest (by rw [iv_min, iv_max]; linarith)
        (by rw [iv_min, iv_max]; linarith) hstep]
      rfl

theorem decode_encode_identity (g : String) (h : specWellFormed g = true) :
    ∃ lat lon : ℚ, decode g = Except.ok (lat, lon) ∧
      encode lat lon (g.length : ℤ) = g := by
  obtain ⟨l⟩ := g
  cases l with
  | nil => simp [specWellFormed] at h
  | cons first rest =>
    rw [specWellFormed] at h
    rw [Bool.and_eq_true, Bool.or_eq_true, decide_eq_true_eq,
      decide_eq_true_eq, List.all_eq_true] at h
    obtain ⟨hfirst, hall⟩ := h
    have hlen : (((String.mk (first :: rest)).length : ℤ) - 1).toNat =
        rest.length := by
      rw [length_mk]
      simp only [List.length_cons]
      omega
    rcases hfirst with rfl | rfl
    · obtain ⟨lonF, latF, hstep, q1, q2, q3, q4, q5, q6⟩ :=
        decodeLoop_valid rest (Interval.mk (-180) 0) (Interval.mk (-90) 90)
          hall (by rw [iv_min, iv_max]; norm_num)
          (by rw [iv_min, iv_max]; norm_num)
      refine ⟨(latF.min + latF.max) / 2, (lonF.min + lonF.max) / 2, ?_, ?_⟩
      · show decodeList ('w' :: rest) = _
        simp only [decodeList, (show hemisphere 'w' =
          some (Interval.mk (-180) 0) from rfl), hstep]
      · simp only [iv_max] at q4
        have hlt : (lonF.min + lonF.max) / 2 < 0 := by linarith
        rw [encode, if_pos hlt, hlen]
        rw [encodeLoop_decodeLoop rest (Interval.mk (-180) 0)
          (Interval.mk (-90) 90) lonF latF hall
          (by rw [iv_min, iv_max]; norm_num)
          (by rw [iv_min, iv_max]; norm_num) hstep]
    · obtain ⟨lonF, latF, hstep, q1, q2, q3, q4, q5, q6⟩ :=
        decodeLoop_valid rest (Interval.mk 0 180) (Interval.mk (-90) 90)
          hall (by rw [iv_min, iv_max]; norm_num)
          (by rw [iv_min, iv_max]; norm_num)
      refine ⟨(latF.min + latF.max) / 2, (lonF.min + lonF.max) / 2, ?_, ?_⟩
      · show decodeList ('e' :: rest) = _
        simp only [decodeList, (show hemisphere 'e' =
          some (Interval.mk 0 180) from rfl), hstep]
      · simp only [iv_min] at q3
        have hge : ¬ ((lonF.min + lonF.max) / 2 < 0) := by push_neg; linarith
        rw [encode, if_neg hge, hlen]
        rw [encodeLoop_decodeLoop rest (Interval.mk 0 180)
          (Interval.mk (-90) 90) lonF latF hall
          (by rw [iv_min, iv_max]; norm_num)
          (by rw [iv_min, iv_max]; norm_num) hstep]

/-- C10: re-encoding the decoded cell midpoint of a syntactically valid
geoprint at the same precision reproduces the geoprint exactly: the
midpoint lies strictly inside every bisection interval, so the strict
tie-break re-selects the same halves and hemisphere. -/
theorem C10_encode_decode_identity (g : String) (h : specWellFormed g = true)
    (lat lon : ℚ) (hd : decode g = Except.ok (lat, lon)) :
    encode lat lon (g.length : ℤ) = g := by
  obtain ⟨lat2, lon2, hd2, henc⟩ := decode_encode_identity g h
  rw [hd] at hd2
  injection hd2 with hp
  injection hp with h1 h2
  rw [h1, h2]
  exact henc

theorem C10_witness :
    encode (-(135 / 2 : ℚ)) (-(315 / 2 : ℚ)) (wgg.length : ℤ) = wgg :=
  C10_encode_decode_identity wgg (by norm_num [specWellFormed, wgg, decodemap])
    (-(135 / 2)) (-(315 / 2))
    (by norm_num [wgg, decode, decodeList, decodeLoop, decodemap, hemisphere])

theorem radials_map_shape (f : String × ℝ → String × String)
    (hf : ∀ br, (f br).1 = br.1) :
    ((radials.map f).toFinset).card = 8 ∧
    ∀ p ∈ (radials.map f).toFinset,
      p.1 = bN ∨ p.1 = bNE ∨ p.1 = bE ∨ p.1 = bSE ∨ p.1 = bS ∨ p.1 = bSW ∨
        p.1 = bW ∨ p.1 = bNW := by
  have hkeys : (radials.map Prod.fst).Nodup := by
    simp only [radials, List.map]
    decide
  have hmapped : ((radials.map f).map Prod.fst) = radials.map Prod.fst := by
    rw [List.map_map]
    exact List.map_congr_left (fun a _ => hf a)
  have hnodup : (radials.map f).Nodup :=
    List.Nodup.of_map Prod.fst (by rw [hmapped]; exact hkeys)
  refine ⟨?_, ?_⟩
  · rw [List.toFinset_card_of_nodup hnodup, List.length_map]
    rfl
  · intro p hp
    rw [List.mem_toFinset] at hp
    obtain ⟨br, hbr, rfl⟩ := List.mem_map.mp hp
    rw [hf br]
    simp only [radials] at hbr
    fin_cases hbr <;> simp

/-- C9: for every syntactically valid geoprint, `neighbors` (with
bearings) returns a set of exactly 8 entries, one per compass
direction, whose bearing components are drawn only from
{N, NE, E, SE, S, SW, W, NW}. -/
theorem C9_neighbors_eight_bearings (g : String)
    (h : specWellFormed g = true) :
    ∃ s : Finset (String × String), neighbors g = Except.ok s ∧ s.card = 8 ∧
      ∀ p ∈ s, p.1 = bN ∨ p.1 = bNE ∨ p.1 = bE ∨ p.1 = bSE ∨ p.1 = bS ∨
        p.1 = bSW ∨ p.1 = bW ∨ p.1 = bNW := by
  obtain ⟨lat, lon, hd, -⟩ := decode_encode_identity g h
  simp only [neighbors, hd, except_bind_ok]
  refine ⟨_, rfl, ?_, ?_⟩
  · exact (radials_map_shape _ (fun br => rfl)).1
  · exact (radials_map_shape _ (fun br => rfl)).2

theorem C9_witness :
    specWellFormed wgg = true ∧
    (∃ s : Finset (String × String), neighbors wgg = Except.ok s ∧
      s.card = 8 ∧
      ∀ p ∈ s, p.1 = bN ∨ p.1 = bNE ∨ p.1 = bE ∨ p.1 = bSE ∨ p.1 = bS ∨
        p.1 = bSW ∨ p.1 = bW ∨ p.1 = bNW) :=
  ⟨by decide, C9_neighbors_eight_bearings wgg (by decide)⟩

end Geoprint
